import Mathlib

/-!
Verification of the PyRAGemini RAG pipeline core.

The repository (`src/document_loader.py`, `src/text_splitter.py`, `src/embedings.py`,
`src/indexing.py`) wraps external LangChain/FAISS components.  The repository's own
logic (argument validation, extension dispatch, directory-scan skipping, exception
wrapping) is embedded here directly from the source.  The algorithms that live in the
external dependencies (the recursive character splitter, the vector-store top-k search,
the index artifact write) are not repository code; where a claim is decided by them the
corresponding definition is modelled from the specification and marked
`Modelled from the spec:` in its doc comment.

Python strings are modelled as `List Char`; Python exceptions as an explicit error type
returned through `Except`.
-/

set_option linter.unusedVariables false

abbrev PyStr := List Char

/-- A LangChain document: page content plus string-valued metadata pairs
(spec §3, Document: content plus metadata mapping). -/
structure Document where
  page_content : PyStr
  metadata : List (PyStr × PyStr) := []
deriving DecidableEq

/-- Exception kinds raised by the embedded repository code: `valueError`,
`fileNotFoundError` and the bare `Exception` re-raised by the `except` blocks
(`exceptionError`).  The constructor `dimensionMismatchError` is never produced by any
embedded function; it is declared only so that the spec's claim that `load_index` fails
with `DimensionMismatchError` can be stated and settled. -/
inductive PyException where
  | valueError (msg : PyStr)
  | fileNotFoundError (msg : PyStr)
  | exceptionError (msg : PyStr)
  | dimensionMismatchError (msg : PyStr)
deriving DecidableEq

/- ### Text splitter (src/text_splitter.py)

`split_documents` delegates the whole splitting strategy to the external
`RecursiveCharacterTextSplitter(chunk_size, chunk_overlap)`.  The splitter itself is
not repository code, so it is modelled from the spec (§4.1): recursive
separator-priority splitting with progressively finer separators, greedy merging of
units into chunks of at most `chunk_size` characters, trailing context of at most
`chunk_overlap` characters carried from one chunk into the next, oversized atomic
units emitted as-is, and `chunk_overlap >= chunk_size` rejected at call time as a
configuration error.  Separators are modelled as single characters (finest last). -/

/-- Modelled from the spec: split a text at every occurrence of the separator `s`,
keeping the separator attached to the end of the piece it terminates, so that the
pieces concatenate back to the input and no character is dropped. -/
def splitBySep (s : Char) : PyStr → List PyStr
  | [] => []
  | c :: cs =>
    if c = s then
      [c] :: splitBySep s cs
    else
      match splitBySep s cs with
      | [] => [[c]]
      | p :: ps => (c :: p) :: ps

/-- Modelled from the spec: recursive separator-priority splitting (§4.1).  Split on
the coarsest separator first; every piece still exceeding `size` is re-split with the
remaining, finer separators; a piece for which no separator is left is an atomic unit
and is kept whole. -/
def recursiveSplit (size : Nat) (seps : List Char) : PyStr → List PyStr :=
  match seps with
  | [] => fun text => [text]
  | s :: rest => fun text =>
    ((splitBySep s text).map (fun u =>
      if u.length ≤ size then [u] else recursiveSplit size rest u)).flatten

/-- The trailing context carried between adjacent chunks: the last `overlap`
characters of a chunk (all of it when the chunk is shorter). -/
def takeOverlap (overlap : Nat) (chunk : PyStr) : PyStr :=
  chunk.drop (chunk.length - overlap)

/-- Modelled from the spec: greedy assembly of split units into chunks (§4.1).  Each
produced chunk is paired with the number of leading characters that are carried-over
trailing context from the previous chunk.  `seed` is that carried context for the
chunk being built and `cur` its new characters.  A unit longer than `size` is an
oversized atomic unit and is emitted as-is as its own chunk; otherwise units are
accumulated while the chunk stays within `size`, and on closing a chunk at most
`overlap` trailing characters (trimmed so the next unit still fits) seed the next
chunk. -/
def mergeUnits (size overlap : Nat) : List PyStr → PyStr → PyStr → List (Nat × PyStr)
  | [], seed, cur =>
    if cur = [] then [] else [(seed.length, seed ++ cur)]
  | u :: rest, seed, cur =>
    if size < u.length then
      (if cur = [] then [] else [(seed.length, seed ++ cur)]) ++
        (0, u) :: mergeUnits size overlap rest (takeOverlap overlap u) []
    else if seed.length + cur.length + u.length ≤ size then
      mergeUnits size overlap rest seed (cur ++ u)
    else if cur = [] then
      mergeUnits size overlap rest (seed.drop (seed.length + u.length - size)) u
    else
      let chunk := seed ++ cur
      let ov := takeOverlap overlap chunk
      (seed.length, chunk) :: mergeUnits size overlap rest (ov.drop (ov.length + u.length - size)) u

/-- The chunks of one text, each annotated with the length of its carried-over
overlap seed. -/
def splitTextAnnotated (seps : List Char) (size overlap : Nat) (text : PyStr) :
    List (Nat × PyStr) :=
  mergeUnits size overlap (recursiveSplit size seps text) [] []

/-- The chunk contents of one text. -/
def split_text (seps : List Char) (size overlap : Nat) (text : PyStr) : List PyStr :=
  (splitTextAnnotated seps size overlap text).map (fun p => p.2)

/-- The error raised by the modelled splitter configuration check (spec §7,
`ConfigurationError`: invalid chunk size/overlap relationship). -/
inductive SplitError where
  | configurationError
deriving DecidableEq

/-- Modelled from the spec: `split_documents(documents, chunk_size, chunk_overlap)`
(src/text_splitter.py:5-25 delegates to the external splitter).  Rejects
`chunk_overlap >= chunk_size` at call time before any splitting (§4.1 Failure),
otherwise splits every document and inherits its metadata onto each chunk. -/
def split_documents (seps : List Char) (chunk_size chunk_overlap : Nat)
    (documents : List Document) : Except SplitError (List Document) :=
  if chunk_size ≤ chunk_overlap then .error .configurationError
  else .ok ((documents.map (fun d =>
    (split_text seps chunk_size chunk_overlap d.page_content).map
      (fun c => { page_content := c, metadata := d.metadata }))).flatten)

/- ### Splitter lemmas -/

theorem splitBySep_flatten (s : Char) : ∀ t : PyStr, (splitBySep s t).flatten = t := by
  intro t
  induction t with
  | nil => rfl
  | cons c cs ih =>
    by_cases hc : c = s
    · simp [splitBySep, hc, ih]
    · simp only [splitBySep, hc, if_false]
      cases hr : splitBySep s cs with
      | nil =>
        rw [hr] at ih
        simp at ih
        simp [← ih]
      | cons p ps =>
        rw [hr] at ih
        simp at ih ⊢
        exact ih

theorem mem_splitBySep_sep_not_interior {s : Char} :
    ∀ (t u : PyStr), u ∈ splitBySep s t → s ∉ u.dropLast := by
  intro t
  induction t with
  | nil => intro u h; simp [splitBySep] at h
  | cons c cs ih =>
    intro u hmem
    by_cases hc : c = s
    · simp only [splitBySep, hc, if_true] at hmem
      rcases List.mem_cons.mp hmem with h | h
      · subst h; simp
      · exact ih u h
    · simp only [splitBySep, hc, if_false] at hmem
      cases hr : splitBySep s cs with
      | nil =>
        rw [hr] at hmem
        simp at hmem
        subst hmem; simp
      | cons p ps =>
        rw [hr] at hmem
        rcases List.mem_cons.mp hmem with h | h
        · subst h
          cases p with
          | nil => simp
          | cons q qs =>
            have hp : s ∉ (q :: qs).dropLast :=
              ih (q :: qs) (by rw [hr]; exact List.mem_cons_self _ _)
            intro habs
            rw [List.dropLast_cons₂] at habs
            rcases List.mem_cons.mp habs with h1 | h1
            · exact hc h1.symm
            · exact hp h1
        · exact ih u (by rw [hr]; exact List.mem_cons_of_mem _ h)

theorem splitBySep_eq_self {s : Char} :
    ∀ {u : PyStr}, u ≠ [] → s ∉ u.dropLast → splitBySep s u = [u] := by
  intro u
  induction u with
  | nil => intro h; exact absurd rfl h
  | cons c cs ih =>
    intro _ hint
    cases cs with
    | nil =>
      by_cases hc : c = s
      · simp [splitBySep, hc]
      · simp [splitBySep, hc]
    | cons d ds =>
      rw [List.dropLast_cons₂] at hint
      have hc : c ≠ s := fun h => hint (by simp [h])
      have hds : s ∉ (d :: ds).dropLast := fun h => hint (List.mem_cons_of_mem _ h)
      have hrec : splitBySep s (d :: ds) = [d :: ds] := ih (by simp) hds
      have hunf : splitBySep s (c :: d :: ds) =
          if c = s then [c] :: splitBySep s (d :: ds)
          else match splitBySep s (d :: ds) with
            | [] => [[c]]
            | p :: ps => (c :: p) :: ps := rfl
      rw [hunf, if_neg hc, hrec]

theorem flatten_map_flatten (f : PyStr → List PyStr) (l : List PyStr)
    (h : ∀ u ∈ l, (f u).flatten = u) : ((l.map f).flatten).flatten = l.flatten := by
  induction l with
  | nil => rfl
  | cons p ps ih =>
    simp only [List.map_cons, List.flatten_cons, List.flatten_append]
    rw [h p (List.mem_cons_self _ _), ih (fun u hu => h u (List.mem_cons_of_mem _ hu))]

theorem recursiveSplit_flatten (size : Nat) :
    ∀ (seps : List Char) (text : PyStr), (recursiveSplit size seps text).flatten = text := by
  intro seps
  induction seps with
  | nil => intro text; simp [recursiveSplit]
  | cons s rest ih =>
    intro text
    show (((splitBySep s text).map (fun u =>
      if u.length ≤ size then [u] else recursiveSplit size rest u)).flatten).flatten = text
    rw [flatten_map_flatten _ _ (fun u _ => by
      by_cases hu : u.length ≤ size
      · simp [hu]
      · simp [hu, ih u])]
    exact splitBySep_flatten s text

theorem exists_append_of_mem_flatten {u : PyStr} :
    ∀ {L : List PyStr}, u ∈ L → ∃ a b, L.flatten = a ++ u ++ b := by
  intro L
  induction L with
  | nil => intro h; simp at h
  | cons p ps ih =>
    intro hmem
    rcases List.mem_cons.mp hmem with h | h
    · exact ⟨[], ps.flatten, by simp [h]⟩
    · rcases ih h with ⟨a, b, hab⟩
      exact ⟨p ++ a, b, by simp [hab]⟩

theorem sep_not_interior_extend {s : Char} {u a b p : PyStr}
    (hp : p = a ++ u ++ b) (hint : s ∉ p.dropLast) : s ∉ u.dropLast := by
  intro habs
  apply hint
  cases u with
  | nil => simp at habs
  | cons c cs =>
    cases b with
    | nil =>
      subst hp
      simp only [List.append_nil]
      rw [List.dropLast_append_of_ne_nil _ (by simp : (c :: cs) ≠ [])]
      exact List.mem_append_right _ habs
    | cons e es =>
      subst hp
      rw [List.append_assoc]
      rw [List.dropLast_append_of_ne_nil _ (by simp : (c :: cs) ++ e :: es ≠ [])]
      apply List.mem_append_right
      rw [List.dropLast_append_of_ne_nil _ (by simp : (e :: es) ≠ [])]
      apply List.mem_append_left
      exact List.dropLast_sublist (c :: cs) |>.mem habs

theorem mem_recursiveSplit_oversized (size : Nat) :
    ∀ (seps : List Char) (t u : PyStr), u ∈ recursiveSplit size seps t →
      size < u.length → ∀ s ∈ seps, s ∉ u.dropLast := by
  intro seps
  induction seps with
  | nil => intro t u hu hlen s hs; simp at hs
  | cons s0 rest ih =>
    intro t u hu hlen s hs
    have hu' : u ∈ ((splitBySep s0 t).map (fun v =>
        if v.length ≤ size then [v] else recursiveSplit size rest v)).flatten := hu
    rw [List.mem_flatten] at hu'
    rcases hu' with ⟨l, hl, hul⟩
    rcases List.mem_map.mp hl with ⟨p, hp, rfl⟩
    by_cases hple : p.length ≤ size
    · simp only [hple, if_true, List.mem_singleton] at hul
      subst hul
      omega
    · simp only [hple, if_false] at hul
      rcases List.mem_cons.mp hs with rfl | hs'
      · have hpint : s ∉ p.dropLast := mem_splitBySep_sep_not_interior t p hp
        rcases exists_append_of_mem_flatten hul with ⟨a, b, hab⟩
        rw [recursiveSplit_flatten] at hab
        exact sep_not_interior_extend hab hpint
      · exact ih p u hul hlen s hs'

/-- The concatenation of the chunks with each one's carried-over overlap seed
removed: the non-duplicated text of a chunk list. -/
def dropJoin (chunks : List (Nat × PyStr)) : PyStr :=
  (chunks.map (fun p => p.2.drop p.1)).flatten

@[simp] theorem dropJoin_nil : dropJoin [] = [] := rfl

@[simp] theorem dropJoin_cons (n : Nat) (c : PyStr) (l : List (Nat × PyStr)) :
    dropJoin ((n, c) :: l) = c.drop n ++ dropJoin l := by
  simp [dropJoin]

theorem drop_len_append (l₁ l₂ : PyStr) : (l₁ ++ l₂).drop l₁.length = l₂ := by
  simp

theorem mergeUnits_dropJoin (size overlap : Nat) :
    ∀ (units : List PyStr) (seed cur : PyStr),
      dropJoin (mergeUnits size overlap units seed cur) = cur ++ units.flatten := by
  intro units
  induction units with
  | nil =>
    intro seed cur
    by_cases hcur : cur = []
    · simp [mergeUnits, hcur]
    · simp [mergeUnits, hcur, drop_len_append]
  | cons u rest ih =>
    intro seed cur
    by_cases hbig : size < u.length
    · by_cases hcur : cur = []
      · subst hcur
        simp [mergeUnits, hbig, ih]
      · simp [mergeUnits, hbig, hcur, ih, drop_len_append]
    · by_cases hfit : seed.length + cur.length + u.length ≤ size
      · simp [mergeUnits, hbig, hfit, ih]
      · by_cases hcur : cur = []
        · subst hcur
          simp only [mergeUnits, if_neg hbig]
          split
          next => rw [ih]; simp
          next =>
            split
            next => rw [ih]; simp
            next hne => exact absurd trivial hne
        · simp [mergeUnits, hbig, hfit, hcur, ih, drop_len_append]

theorem mergeUnits_chunk_bound (size overlap : Nat) (hov : overlap < size) :
    ∀ (units : List PyStr) (seed cur : PyStr), seed.length + cur.length ≤ size →
      ∀ c ∈ mergeUnits size overlap units seed cur, c.2.length ≤ size ∨ c.2 ∈ units := by
  intro units
  induction units with
  | nil =>
    intro seed cur hsc c hc
    by_cases hcur : cur = []
    · simp [mergeUnits, hcur] at hc
    · simp [mergeUnits, hcur] at hc
      subst hc
      left
      simp only [List.length_append]
      omega
  | cons u rest ih =>
    intro seed cur hsc c hc
    by_cases hbig : size < u.length
    · have hrec : ∀ c ∈ mergeUnits size overlap rest (takeOverlap overlap u) [],
          c.2.length ≤ size ∨ c.2 ∈ u :: rest := by
        intro c hc
        have hlen : (takeOverlap overlap u).length + ([] : PyStr).length ≤ size := by
          simp [takeOverlap, List.length_drop]
          omega
        rcases ih (takeOverlap overlap u) [] hlen c hc with h | h
        · exact Or.inl h
        · exact Or.inr (List.mem_cons_of_mem _ h)
      by_cases hcur : cur = []
      · simp only [mergeUnits, if_pos hbig, if_pos hcur, List.nil_append] at hc
        rcases List.mem_cons.mp hc with rfl | hc'
        · exact Or.inr (List.mem_cons_self _ _)
        · exact hrec c hc'
      · simp only [mergeUnits, if_pos hbig, if_neg hcur] at hc
        rcases List.mem_append.mp hc with hc' | hc'
        · left
          rcases List.mem_singleton.mp hc' with rfl
          simp only [List.length_append]
          omega
        · rcases List.mem_cons.mp hc' with rfl | hc''
          · exact Or.inr (List.mem_cons_self _ _)
          · exact hrec c hc''
    · by_cases hfit : seed.length + cur.length + u.length ≤ size
      · simp only [mergeUnits, if_neg hbig, if_pos hfit] at hc
        have hlen : seed.length + (cur ++ u).length ≤ size := by
          simp only [List.length_append]
          omega
        rcases ih seed (cur ++ u) hlen c hc with h | h
        · exact Or.inl h
        · exact Or.inr (List.mem_cons_of_mem _ h)
      · by_cases hcur : cur = []
        · simp only [mergeUnits, if_neg hbig, if_neg hfit, if_pos hcur] at hc
          have hlen : (seed.drop (seed.length + u.length - size)).length + u.length ≤ size := by
            simp only [List.length_drop]
            omega
          rcases ih _ u hlen c hc with h | h
          · exact Or.inl h
          · exact Or.inr (List.mem_cons_of_mem _ h)
        · simp only [mergeUnits, if_neg hbig, if_neg hfit, if_neg hcur] at hc
          rcases List.mem_cons.mp hc with rfl | hc'
          · left
            simp only [List.length_append]
            omega
          · have hov2 : (takeOverlap overlap (seed ++ cur)).length ≤ overlap := by
              simp only [takeOverlap, List.length_drop, List.length_append]
              omega
            have hlen : ((takeOverlap overlap (seed ++ cur)).drop
                ((takeOverlap overlap (seed ++ cur)).length + u.length - size)).length
                + u.length ≤ size := by
              simp only [List.length_drop]
              omega
            rcases ih _ u hlen c hc' with h | h
            · exact Or.inl h
            · exact Or.inr (List.mem_cons_of_mem _ h)

theorem splitTextAnnotated_dropJoin (seps : List Char) (size overlap : Nat) (text : PyStr) :
    dropJoin (splitTextAnnotated seps size overlap text) = text := by
  unfold splitTextAnnotated
  rw [mergeUnits_dropJoin]
  simp [recursiveSplit_flatten]

theorem split_text_chunk_bound (seps : List Char) (size overlap : Nat) (text : PyStr)
    (hov : overlap < size) :
    ∀ c ∈ split_text seps size overlap text,
      c.length ≤ size ∨ ∀ s ∈ seps, splitBySep s c = [c] := by
  intro c hc
  rcases List.mem_map.mp hc with ⟨p, hp, rfl⟩
  rcases mergeUnits_chunk_bound size overlap hov (recursiveSplit size seps text) [] []
      (by simp) p hp with h | h
  · exact Or.inl h
  · by_cases hlen : p.2.length ≤ size
    · exact Or.inl hlen
    · right
      intro s hs
      have hint := mem_recursiveSplit_oversized size seps text p.2 h (by omega) s hs
      exact splitBySep_eq_self (fun he => hlen (by simp [he])) hint

theorem zipWith_map_same (f : β → γ → δ) (g : α → β) (h : α → γ) (l : List α) :
    List.zipWith f (l.map g) (l.map h) = l.map (fun a => f (g a) (h a)) := by
  induction l with
  | nil => rfl
  | cons a l ih => simp [ih]

/-- C2: for every `chunk_size` and `chunk_overlap` with `chunk_overlap >= chunk_size`,
the splitter raises `ConfigurationError` at call time, before any splitting occurs,
for every input document sequence. -/
theorem C2_overlap_ge_size_is_configuration_error (seps : List Char) (cs co : Nat)
    (docs : List Document) (h : cs ≤ co) :
    split_documents seps cs co docs = .error .configurationError := by
  simp [split_documents, h]

def sampleText : PyStr := "ab cd ef".data

def sampleDoc : Document := { page_content := sampleText, metadata := [] }

theorem C2_overlap_ge_size_is_configuration_error_witness :
    3 ≤ 5 ∧ split_documents ['\n'] 3 5 [sampleDoc] = .error .configurationError :=
  ⟨by omega, C2_overlap_ge_size_is_configuration_error ['\n'] 3 5 [sampleDoc] (by omega)⟩

/-- C3: for every document `D` and every valid `(chunk_size, chunk_overlap)` with
`chunk_overlap < chunk_size`, concatenating in order the contents of the chunks
`split_documents` produces from `D`, with each chunk's designed carried-over overlap
prefix removed, reconstructs `D`'s content exactly: no character of `D` is lost. -/
theorem C3_concatenation_reconstructs_document (seps : List Char) (cs co : Nat)
    (D : Document) (h : co < cs) :
    ∃ chunks, split_documents seps cs co [D] = .ok chunks ∧
      (List.zipWith (fun d (c : Document) => c.page_content.drop d)
        ((splitTextAnnotated seps cs co D.page_content).map Prod.fst) chunks).flatten
        = D.page_content := by
  have hns : ¬ cs ≤ co := by omega
  refine ⟨(split_text seps cs co D.page_content).map
      (fun c => { page_content := c, metadata := D.metadata }), ?_, ?_⟩
  · simp [split_documents, hns]
  · rw [split_text, List.map_map, zipWith_map_same]
    exact splitTextAnnotated_dropJoin seps cs co D.page_content

theorem C3_concatenation_reconstructs_document_witness :
    2 < 5 ∧ ∃ chunks, split_documents [' '] 5 2 [sampleDoc] = .ok chunks ∧
      (List.zipWith (fun d (c : Document) => c.page_content.drop d)
        ((splitTextAnnotated [' '] 5 2 sampleDoc.page_content).map Prod.fst) chunks).flatten
        = sampleDoc.page_content :=
  ⟨by omega, C3_concatenation_reconstructs_document [' '] 5 2 sampleDoc (by omega)⟩

/-- C4: under a valid configuration the splitter never errors, and every emitted chunk
either has content length at most `chunk_size` or is a single unsplittable unit:
splitting it by any separator of the hierarchy returns it whole. -/
theorem C4_chunk_length_bound (seps : List Char) (cs co : Nat) (docs : List Document)
    (h : co < cs) :
    ∃ chunks, split_documents seps cs co docs = .ok chunks ∧
      ∀ c ∈ chunks, c.page_content.length ≤ cs ∨
        ∀ s ∈ seps, splitBySep s c.page_content = [c.page_content] := by
  have hns : ¬ cs ≤ co := by omega
  refine ⟨(docs.map (fun d => (split_text seps cs co d.page_content).map
      (fun c => { page_content := c, metadata := d.metadata }))).flatten, ?_, ?_⟩
  · simp [split_documents, hns]
  · intro c hc
    rw [List.mem_flatten] at hc
    rcases hc with ⟨l, hl, hcl⟩
    rcases List.mem_map.mp hl with ⟨d, hd, rfl⟩
    rcases List.mem_map.mp hcl with ⟨content, hcont, rfl⟩
    simpa using split_text_chunk_bound seps cs co d.page_content h content hcont

def longWordDoc : Document := { page_content := "aaaaaaa bb".data, metadata := [] }

theorem C4_chunk_length_bound_witness :
    1 < 3 ∧ ∃ chunks, split_documents [' '] 3 1 [longWordDoc] = .ok chunks ∧
      ∀ c ∈ chunks, c.page_content.length ≤ 3 ∨
        ∀ s ∈ [' '], splitBySep s c.page_content = [c.page_content] :=
  ⟨by omega, C4_chunk_length_bound [' '] 3 1 [longWordDoc] (by omega)⟩

/- ### Indexing (src/indexing.py)

`IndexManager` validates its arguments and wraps failures; the index construction,
serialization and top-k search themselves are performed by the external FAISS vector
store.  The external calls are passed in as explicit function parameters
(`from_documents`, `save_local`, `load_local`), so every theorem below quantifies over
the backend's behavior; the top-k search and the artifact write, which decide claims
C5 and C8, are modelled from the spec. -/

abbrev Zvec := List Int

/-- The embedding provider handle (`self.embeddings_model`): the model's vector
dimension and a deterministic text-to-vector map.  Vector components are modelled as
exact integers; their numeric values are irrelevant to the claims. -/
structure Provider where
  dim : Nat
  embed : PyStr → Zvec

/-- Modelled from the spec (§3, §4.3): the FAISS index as an ownership container of
(vector, chunk) entries plus the embedding dimension recorded at build time. -/
structure VectorIndex where
  dim : Nat
  entries : List (Zvec × Document)
deriving DecidableEq

/-- Squared L2 distance between two vectors, componentwise (§4.3 search metric). -/
def dist2 (a b : Zvec) : Int :=
  ((a.zip b).map (fun p => (p.1 - p.2) * (p.1 - p.2))).sum

/-- The spec's `EmptyIndexError` (§4.3 search on an index with zero entries). -/
inductive IndexErr where
  | emptyIndexError
deriving DecidableEq

/-- Modelled from the spec (§4.3 search): embed the query, score every stored entry,
and return the k best-scoring chunks, stable sort with ties broken by insertion
order; if k exceeds the number of stored entries all entries are returned; an index
with zero entries is an error. -/
def VectorIndex.search (idx : VectorIndex) (p : Provider) (query : PyStr) (k : Nat) :
    Except IndexErr (List Document) :=
  if idx.entries.isEmpty then .error .emptyIndexError
  else
    let qv := p.embed query
    let scored := idx.entries.map (fun e => (dist2 qv e.1, e.2))
    .ok (((List.insertionSort (fun a b => a.1 ≤ b.1) scored).take k).map (fun e => e.2))

/-- src/indexing.py:8-28 `IndexManager.__init__`: the index directory and the
embeddings model constructed once and used for all indices. -/
structure IndexManager where
  index_dir : PyStr
  embeddings_model : Provider

/-- os.path.join for one directory level. -/
def pathJoin (a b : PyStr) : PyStr :=
  if a = [] then b
  else if a.getLast? = some '/' then a ++ b
  else a ++ '/' :: b

def PyException.msg : PyException → PyStr
  | .valueError m => m
  | .fileNotFoundError m => m
  | .exceptionError m => m
  | .dimensionMismatchError m => m

def msgNoChunks : PyStr := "No se proporcionaron documentos para indexar".data

def msgCreateError : PyStr := "Error al crear el índice: ".data

def msgNeedIndexAndName : PyStr := "Se requiere un índice válido y un nombre".data

def msgSaveError : PyStr := "Error al guardar el índice: ".data

def msgIndexNotFound : PyStr := "No se encontró el índice: ".data

def msgLoadError : PyStr := "Error al cargar el índice: ".data

def msgNeedIndexAndQuery : PyStr := "Se requiere un índice válido y una consulta".data

def msgSearchError : PyStr := "Error en la búsqueda: ".data

/-- src/indexing.py:30-52 `IndexManager.create_index`: reject an empty chunk list with
ValueError, otherwise delegate to the external `FAISS.from_documents` (passed in as
`from_documents`) and wrap any failure in a bare Exception. -/
def IndexManager.create_index
    (from_documents : List Document → Provider → Except PyException VectorIndex)
    (m : IndexManager) (chunks : List Document) : Except PyException VectorIndex :=
  if chunks.isEmpty then .error (.valueError msgNoChunks)
  else
    match from_documents chunks m.embeddings_model with
    | .ok db => .ok db
    | .error e => .error (.exceptionError (msgCreateError ++ e.msg))

/-- src/indexing.py:54-73 `IndexManager.save_index`: reject a missing index or an
empty name with ValueError, otherwise delegate to the external
`db.save_local(index_path)` (passed in as `save_local`) and wrap any failure in a
bare Exception. -/
def IndexManager.save_index
    (save_local : VectorIndex → PyStr → Except PyException Unit)
    (m : IndexManager) (db : Option VectorIndex) (index_name : PyStr) :
    Except PyException Unit :=
  match db with
  | none => .error (.valueError msgNeedIndexAndName)
  | some d =>
    if index_name = [] then .error (.valueError msgNeedIndexAndName)
    else
      match save_local d (pathJoin m.index_dir index_name) with
      | .ok _ => .ok ()
      | .error e => .error (.exceptionError (msgSaveError ++ e.msg))

/-- src/indexing.py:75-99 `IndexManager.load_index`: FileNotFoundError when the index
path does not exist, otherwise delegate to the external
`FAISS.load_local(index_path, embeddings_model)` (passed in as `load_local`) and wrap
any failure in a bare Exception.  The source performs no dimension comparison between
the stored artifact and the embeddings model. -/
def IndexManager.load_index
    (path_exists : PyStr → Bool)
    (load_local : PyStr → Provider → Except PyException VectorIndex)
    (m : IndexManager) (index_name : PyStr) : Except PyException VectorIndex :=
  let index_path := pathJoin m.index_dir index_name
  if path_exists index_path = false then
    .error (.fileNotFoundError (msgIndexNotFound ++ index_path))
  else
    match load_local index_path m.embeddings_model with
    | .ok db => .ok db
    | .error e => .error (.exceptionError (msgLoadError ++ e.msg))

/-- src/indexing.py:101-128 `IndexManager.similarity_search`: reject a missing index
or an empty query with ValueError, otherwise delegate to the index's similarity
search and wrap any failure in a bare Exception. -/
def IndexManager.similarity_search (m : IndexManager) (db : Option VectorIndex)
    (query : PyStr) (k : Nat) : Except PyException (List Document) :=
  match db with
  | none => .error (.valueError msgNeedIndexAndQuery)
  | some d =>
    if query = [] then .error (.valueError msgNeedIndexAndQuery)
    else
      match d.search m.embeddings_model query k with
      | .ok results => .ok results
      | .error _ => .error (.exceptionError msgSearchError)

/-- Whether a result is a `DimensionMismatchError` failure. -/
def isDimensionMismatch {α : Type} : Except PyException α → Bool
  | .error (.dimensionMismatchError _) => true
  | _ => false

/-- C1 (amended): `load_index` never fails with `DimensionMismatchError`, for every
filesystem state, every backend `FAISS.load_local` behavior, every manager and every
index name — its only failure modes are `FileNotFoundError` for a missing path and a
wrapped bare `Exception`; no dimension check is performed. -/
theorem C1_load_index_never_dimension_mismatch
    (path_exists : PyStr → Bool)
    (load_local : PyStr → Provider → Except PyException VectorIndex)
    (m : IndexManager) (index_name : PyStr) :
    isDimensionMismatch (m.load_index path_exists load_local index_name) = false := by
  unfold IndexManager.load_index
  by_cases h : path_exists (pathJoin m.index_dir index_name) = false
  · simp [h, isDimensionMismatch]
  · cases hl : load_local (pathJoin m.index_dir index_name) m.embeddings_model with
    | ok db => simp [h, hl, isDimensionMismatch]
    | error e => simp [h, hl, isDimensionMismatch]

def doc0 : Document := { page_content := "hola".data, metadata := [] }

def provider3 : Provider := { dim := 3, embed := fun _ => [1, 1, 1] }

def mgr0 : IndexManager := { index_dir := "indexes".data, embeddings_model := provider3 }

def idx5 : VectorIndex := { dim := 5, entries := [([1, 2, 3, 4, 5], doc0)] }

/-- The behavior of the real `FAISS.load_local` on an artifact built with a
5-dimensional model: it deserializes the stored entries without ever consulting the
provider passed to it. -/
def loadLocalDim5 : PyStr → Provider → Except PyException VectorIndex :=
  fun _ _ => .ok idx5

def existsAlways : PyStr → Bool := fun _ => true

def idxName : PyStr := "documentos_index".data

/-- C1 counterexample: reloading an artifact whose stored dimension (5) differs from
the provider's current dimension (3) does not fail with `DimensionMismatchError` —
`load_index` returns the dimension-incompatible index. -/
theorem C1_counterexample_mismatched_reload_succeeds :
    mgr0.load_index existsAlways loadLocalDim5 idxName = .ok idx5 ∧
    idx5.dim = 5 ∧ mgr0.embeddings_model.dim = 3 ∧
    isDimensionMismatch (mgr0.load_index existsAlways loadLocalDim5 idxName) = false :=
  ⟨rfl, rfl, rfl, rfl⟩

/-- C6: `create_index` on an empty chunk sequence fails with the empty-input
ValueError, for every backend build function (so no index is ever built) and every
manager. -/
theorem C6_create_index_empty_input_fails
    (from_documents : List Document → Provider → Except PyException VectorIndex)
    (m : IndexManager) :
    m.create_index from_documents [] = .error (.valueError msgNoChunks) := by
  simp [IndexManager.create_index]

/-- C5: for every non-empty index with n stored entries, every non-empty query and
every k > n, `similarity_search` returns all n stored entries' chunks (a permutation
of them, ordered by similarity) and raises no error. -/
theorem C5_search_k_exceeding_returns_all_entries (m : IndexManager) (idx : VectorIndex)
    (query : PyStr) (k : Nat) (hne : idx.entries ≠ []) (hq : query ≠ [])
    (hk : idx.entries.length < k) :
    ∃ results, m.similarity_search (some idx) query k = .ok results ∧
      results.Perm (idx.entries.map (fun e => e.2)) := by
  have hie : idx.entries.isEmpty = false := by
    cases h : idx.entries
    · exact absurd h hne
    · rfl
  refine ⟨(List.insertionSort (fun a b => a.1 ≤ b.1)
      (idx.entries.map (fun e => (dist2 (m.embeddings_model.embed query) e.1, e.2)))).map
      (fun e => e.2), ?_, ?_⟩
  · have hlen : (List.insertionSort (fun a b => a.1 ≤ b.1)
        (idx.entries.map (fun e => (dist2 (m.embeddings_model.embed query) e.1, e.2)))).length
        ≤ k := by
      rw [(List.perm_insertionSort _ _).length_eq]
      simp only [List.length_map]
      omega
    simp only [IndexManager.similarity_search, VectorIndex.search, hie,
      Bool.false_eq_true, if_false, if_neg hq]
    rw [List.take_of_length_le hlen]
  · have hp := (List.perm_insertionSort (fun a b => a.1 ≤ b.1)
      (idx.entries.map (fun e => (dist2 (m.embeddings_model.embed query) e.1, e.2)))).map
      (fun e => e.2)
    simpa [List.map_map, Function.comp] using hp

def docA : Document := { page_content := "gato".data, metadata := [] }

def docB : Document := { page_content := "perro".data, metadata := [] }

def idx2 : VectorIndex := { dim := 2, entries := [([1, 0], docA), ([0, 2], docB)] }

def provider2 : Provider := { dim := 2, embed := fun _ => [0, 0] }

def mgr2 : IndexManager := { index_dir := "indexes".data, embeddings_model := provider2 }

def queryQ : PyStr := "consulta".data

theorem C5_search_k_exceeding_returns_all_entries_witness :
    idx2.entries ≠ [] ∧ queryQ ≠ [] ∧ idx2.entries.length < 3 ∧
    ∃ results, mgr2.similarity_search (some idx2) queryQ 3 = .ok results ∧
      results.Perm (idx2.entries.map (fun e => e.2)) :=
  ⟨by decide, by decide, by decide,
    C5_search_k_exceeding_returns_all_entries mgr2 idx2 queryQ 3
      (by decide) (by decide) (by decide)⟩

/- ### Save atomicity (claim C8)

`save_index` delegates the artifact write to the external `db.save_local(index_path)`;
that write is not repository code, so it is modelled from the spec (§4.3 save: write
to a temporary location, then rename). -/

/-- A persisted index artifact: its payload and whether the payload's write has
finished (an artifact with `complete = false` is a partially written one). -/
structure Artifact where
  complete : Bool
  content : VectorIndex
deriving DecidableEq

/-- The filesystem locations one save touches: the target artifact location and the
temporary write location. -/
structure SaveFS where
  target : Option Artifact
  temp : Option Artifact
deriving DecidableEq

/-- Modelled from the spec: the artifact write performed by the external
`db.save_local(index_path)` (§4.3 save — write to a temporary location, then rename).
Each list element is one atomic filesystem step: start writing the temporary file
(leaving it incomplete), finish writing it, atomically rename it onto the target.
A crash may interrupt the sequence after any prefix. -/
def save_local_steps (db : VectorIndex) : List (SaveFS → SaveFS) :=
  [ fun s => { s with temp := some { complete := false, content := db } },
    fun s => { s with temp := some { complete := true, content := db } },
    fun s => { target := s.temp, temp := none } ]

def runSteps : List (SaveFS → SaveFS) → SaveFS → SaveFS
  | [], s => s
  | f :: fs, s => runSteps fs (f s)

/-- C8: the save is atomic from the caller's view: for every index, every prior
filesystem state and every crash point (prefix of the save's steps), the target
location afterwards holds either the prior artifact unchanged or the complete new
artifact — never a partially written artifact appearing complete. -/
theorem C8_save_is_atomic (db : VectorIndex) (s0 : SaveFS) (n : Nat) :
    (runSteps ((save_local_steps db).take n) s0).target = s0.target ∨
    (runSteps ((save_local_steps db).take n) s0).target =
      some { complete := true, content := db } := by
  match n with
  | 0 => exact Or.inl rfl
  | 1 => exact Or.inl rfl
  | 2 => exact Or.inl rfl
  | (n + 3) =>
    right
    rw [List.take_of_length_le (by simp [save_local_steps])]
    rfl

/- ### Document loader (src/document_loader.py)

The per-format loaders (PyPDFLoader, Docx2txtLoader, UnstructuredExcelLoader,
TextLoader) are external; each file entry carries the result its loader would
produce, so the embedded functions below contain exactly the repository's own logic:
existence check, case-sensitive suffix dispatch, case-insensitive extension filter,
and catch-print-skip of per-file failures. -/

/-- One directory entry: its filename, whether the file exists, and the result the
external per-format loader produces for it. -/
structure FileEntry where
  name : PyStr
  present : Bool
  load_result : Except PyException (List Document)

/-- Python's `str.endswith`. -/
def endsWith (p t : PyStr) : Bool := decide (t.drop (t.length - p.length) = p)

def pdfExt : PyStr := ".pdf".data

def docxExt : PyStr := ".docx".data

def xlsxExt : PyStr := ".xlsx".data

def txtExt : PyStr := ".txt".data

/-- src/document_loader.py:49 `supported_extensions`. -/
def supported_extensions : List PyStr := [pdfExt, docxExt, xlsxExt, txtExt]

def msgFileNotFound : PyStr := "File not found: ".data

def msgUnsupportedFormat : PyStr := "Unsupported file format: ".data

/-- src/document_loader.py:6-33 `load_document(file_path)`: FileNotFoundError when
the file does not exist; case-sensitive suffix dispatch to the per-format loader
(whose behavior for this file is the entry's `load_result`); ValueError on any other
suffix. -/
def load_document (path : PyStr) (f : FileEntry) : Except PyException (List Document) :=
  if f.present = false then .error (.fileNotFoundError (msgFileNotFound ++ path))
  else if endsWith pdfExt path then f.load_result
  else if endsWith docxExt path then f.load_result
  else if endsWith xlsxExt path then f.load_result
  else if endsWith txtExt path then f.load_result
  else .error (.valueError (msgUnsupportedFormat ++ path))

def notDot (c : Char) : Bool := decide (c ≠ '.')

def isDot (c : Char) : Bool := decide (c = '.')

/-- `os.path.splitext`'s extension of a filename: the suffix starting at the last
dot, or empty when there is no dot or every character before the last dot is itself
a dot (leading dots do not start an extension). -/
def extOf (name : PyStr) : PyStr :=
  let rev := name.reverse
  let after := rev.takeWhile notDot
  if after.length = rev.length then []
  else if (rev.drop (after.length + 1)).all isDot then []
  else '.' :: after.reverse

def msgErrorLoading (path : PyStr) (e : PyException) : PyStr :=
  "Error loading ".data ++ path ++ ": ".data ++ e.msg

/-- The directory filter of src/document_loader.py:53-55:
`os.path.splitext(filename)[1].lower() in supported_extensions`. -/
def passesFilter (f : FileEntry) : Bool :=
  decide (((extOf f.name).map Char.toLower) ∈ supported_extensions)

/-- src/document_loader.py:35-61 `load_documents_from_dir`: for each listed file
whose lower-cased extension is in the supported set, load it and collect its
documents; a load failure is caught, printed and skipped.  Files whose extension is
not in the set are passed over silently.  Returns the loaded documents and,
separately, the printed skip diagnostics. -/
def load_documents_from_dir (directory : PyStr) :
    List FileEntry → List Document × List PyStr
  | [] => ([], [])
  | f :: rest =>
    let r := load_documents_from_dir directory rest
    if passesFilter f then
      match load_document (pathJoin directory f.name) f with
      | .ok ds => (ds ++ r.1, r.2)
      | .error e => (r.1, msgErrorLoading (pathJoin directory f.name) e :: r.2)
    else r

/-- C7 (amended): the directory scan never aborts: it returns, in order, exactly the
documents of the filter-passing files whose load succeeded, and one skip diagnostic
per filter-passing file whose load failed; a file with an unsupported extension is
passed over silently — it contributes no documents and, contrary to the claim, no
skip diagnostic. -/
theorem C7_scan_skips_failures_and_filters_silently (directory : PyStr)
    (dir : List FileEntry) :
    (load_documents_from_dir directory dir).1 =
      ((dir.filter passesFilter).map (fun f =>
        match load_document (pathJoin directory f.name) f with
        | .ok ds => ds
        | .error _ => [])).flatten ∧
    (load_documents_from_dir directory dir).2 =
      (dir.filter passesFilter).filterMap (fun f =>
        match load_document (pathJoin directory f.name) f with
        | .ok _ => none
        | .error e => some (msgErrorLoading (pathJoin directory f.name) e)) := by
  induction dir with
  | nil => exact ⟨rfl, rfl⟩
  | cons f rest ih =>
    by_cases hp : passesFilter f
    · cases hl : load_document (pathJoin directory f.name) f with
      | ok ds =>
        simp [load_documents_from_dir, hp, hl, List.filter_cons, ih.1, ih.2]
      | error e =>
        simp [load_documents_from_dir, hp, hl, List.filter_cons, ih.1, ih.2]
    · simp [load_documents_from_dir, hp, List.filter_cons, ih.1, ih.2]

def fileA : FileEntry :=
  { name := "a.txt".data, present := true,
    load_result := .ok [{ page_content := "aaa".data, metadata := [] }] }

def fileB : FileEntry :=
  { name := "b.pdf".data, present := true,
    load_result := .ok [{ page_content := "bbb".data, metadata := [] }] }

def fileC : FileEntry :=
  { name := "c.docx".data, present := true,
    load_result := .ok [{ page_content := "ccc".data, metadata := [] }] }

def fileD : FileEntry :=
  { name := "d.xlsx".data, present := true,
    load_result := .ok [{ page_content := "ddd".data, metadata := [] }] }

def fileE : FileEntry :=
  { name := "e.md".data, present := true,
    load_result := .ok [{ page_content := "eee".data, metadata := [] }] }

def dirFive : List FileEntry := [fileA, fileB, fileC, fileD, fileE]

def docsDir : PyStr := "documents".data

/-- C7 counterexample: scanning a directory of 5 files where one (`e.md`) has an
unsupported extension yields exactly the 4 supported files' documents but zero skip
diagnostics — not the one diagnostic the claim asserts: the unsupported file is
filtered out silently. -/
theorem C7_counterexample_unsupported_extension_silent :
    (load_documents_from_dir docsDir dirFive).1.length = 4 ∧
    (load_documents_from_dir docsDir dirFive).2 = [] ∧
    (load_documents_from_dir docsDir dirFive).2.length ≠ 1 := by
  refine ⟨?_, ?_, ?_⟩
  · rfl
  · rfl
  · decide

/- ### Lemmas for claim C9 -/

theorem endsWith_iff (p t : PyStr) : endsWith p t = true ↔ ∃ q, t = q ++ p := by
  unfold endsWith
  rw [decide_eq_true_iff]
  constructor
  · intro h
    refine ⟨t.take (t.length - p.length), ?_⟩
    conv_lhs => rw [← List.take_append_drop (t.length - p.length) t]
    rw [h]
  · rintro ⟨q, rfl⟩
    have hl : (q ++ p).length - p.length = q.length := by
      simp only [List.length_append]
      omega
    rw [hl, drop_len_append]

theorem drop_len_succ_append (l₁ : PyStr) (c : Char) (l₂ : PyStr) :
    (l₁ ++ c :: l₂).drop (l₁.length + 1) = l₂ := by
  have h : l₁ ++ c :: l₂ = (l₁ ++ [c]) ++ l₂ := by simp
  have h2 : l₁.length + 1 = (l₁ ++ [c]).length := by simp
  rw [h, h2, drop_len_append]

theorem takeWhile_append_sat (p : Char → Bool) (l₁ : PyStr) (c : Char) (l₂ : PyStr)
    (h1 : ∀ a ∈ l₁, p a = true) (h2 : p c = false) :
    (l₁ ++ c :: l₂).takeWhile p = l₁ := by
  induction l₁ with
  | nil => simp [List.takeWhile_cons, h2]
  | cons a l ih =>
    have ha : p a = true := h1 a (List.mem_cons_self _ _)
    simp only [List.cons_append, List.takeWhile_cons, ha, if_true]
    rw [ih (fun x hx => h1 x (List.mem_cons_of_mem _ hx))]

theorem drop_append_plus (q name : PyStr) (k : Nat) :
    (q ++ name).drop (q.length + k) = name.drop k := by
  induction q with
  | nil => simp
  | cons a q ih =>
    have h : (a :: q).length + k = (q.length + k) + 1 := by
      simp only [List.length_cons]
      omega
    rw [List.cons_append, h, List.drop_succ_cons, ih]

theorem endsWith_append_of_le (s q name : PyStr) (hlen : s.length ≤ name.length) :
    endsWith s (q ++ name) = endsWith s name := by
  unfold endsWith
  have h1 : (q ++ name).length - s.length = q.length + (name.length - s.length) := by
    simp only [List.length_append]
    omega
  rw [h1, drop_append_plus]

theorem pathJoin_eq_append (d name : PyStr) : ∃ q, pathJoin d name = q ++ name := by
  unfold pathJoin
  by_cases h1 : d = []
  · exact ⟨[], by simp [h1]⟩
  · by_cases h2 : d.getLast? = some '/'
    · exact ⟨d, by simp [h1, h2]⟩
    · exact ⟨d ++ ['/'], by simp [h1, h2]⟩

theorem extOf_of_clean_suffix (q t : List Char) (ht : ('.' : Char) ∉ t) :
    extOf (q ++ '.' :: t) = '.' :: t ∨ extOf (q ++ '.' :: t) = [] := by
  have hrev : (q ++ '.' :: t).reverse = t.reverse ++ '.' :: q.reverse := by simp
  have htake : (t.reverse ++ '.' :: q.reverse).takeWhile notDot = t.reverse := by
    apply takeWhile_append_sat
    · intro a ha
      have hat : a ∈ t := List.mem_reverse.mp ha
      have hne : a ≠ '.' := fun he => ht (he ▸ hat)
      simpa [notDot] using hne
    · simp [notDot]
  simp only [extOf]
  rw [hrev, htake]
  have hlen1 : ¬ t.reverse.length = (t.reverse ++ '.' :: q.reverse).length := by
    simp only [List.length_append, List.length_cons, List.length_reverse]
    omega
  rw [if_neg hlen1]
  have hdrop : (t.reverse ++ '.' :: q.reverse).drop (t.reverse.length + 1) = q.reverse :=
    drop_len_succ_append t.reverse '.' q.reverse
  rw [hdrop]
  by_cases hall : q.reverse.all isDot
  · rw [if_pos hall]
    exact Or.inr rfl
  · rw [if_neg hall]
    exact Or.inl (by rw [List.reverse_reverse])

theorem extOf_name_length (name : PyStr) (h : extOf name ≠ []) :
    (extOf name).length + 1 ≤ name.length := by
  simp only [extOf] at h ⊢
  by_cases h1 : (name.reverse.takeWhile notDot).length = name.reverse.length
  · rw [if_pos h1] at h
    exact absurd rfl h
  · rw [if_neg h1] at h ⊢
    by_cases h2 : (name.reverse.drop ((name.reverse.takeWhile notDot).length + 1)).all isDot = true
    · rw [if_pos h2] at h
      exact absurd rfl h
    · rw [if_neg h2] at h ⊢
      have h3 : ¬ name.reverse.length ≤ (name.reverse.takeWhile notDot).length + 1 := by
        intro hle
        apply h2
        rw [List.drop_eq_nil_of_le hle]
        rfl
      have hrevlen : name.reverse.length = name.length := List.length_reverse name
      simp only [List.length_cons, List.length_reverse]
      omega

theorem dispatch_rejects_of_uppercase_ext (path name : PyStr)
    (hpath : ∃ q, path = q ++ name)
    (hl : ((extOf name).map Char.toLower) ∈ supported_extensions)
    (hup : extOf name ≠ (extOf name).map Char.toLower) :
    endsWith pdfExt path = false ∧ endsWith docxExt path = false ∧
      endsWith xlsxExt path = false ∧ endsWith txtExt path = false := by
  rcases hpath with ⟨q, rfl⟩
  have hnotnil : extOf name ≠ [] := by
    intro h
    rw [h] at hl
    exact absurd hl (by decide)
  have hexlen : 4 ≤ (extOf name).length := by
    simp only [supported_extensions, List.mem_cons, List.not_mem_nil, or_false] at hl
    rcases hl with h | h | h | h <;>
      (have hlen := congrArg List.length h
       simp only [List.length_map] at hlen
       rw [hlen]
       decide)
  have hnamelen : (extOf name).length + 1 ≤ name.length := extOf_name_length name hnotnil
  have main : ∀ (s : PyStr) (t : List Char), s = '.' :: t → ('.' : Char) ∉ t →
      s.map Char.toLower = s → s.length ≤ name.length →
      endsWith s (q ++ name) = false := by
    intro s t hst ht hlow hslen
    rw [endsWith_append_of_le s q name hslen]
    cases hb : endsWith s name
    · rfl
    · exfalso
      rcases (endsWith_iff s name).mp hb with ⟨r, hr⟩
      rw [hst] at hr
      rw [hr] at hl hup hnotnil
      rcases extOf_of_clean_suffix r t ht with hx | hx
      · apply hup
        rw [hx, ← hst, hlow]
      · exact hnotnil hx
  have h5 : 5 ≤ name.length := by omega
  refine ⟨?_, ?_, ?_, ?_⟩
  · refine main pdfExt ("pdf".data) rfl (by decide) (by decide) ?_
    have hp4 : pdfExt.length = 4 := rfl
    omega
  · refine main docxExt ("docx".data) rfl (by decide) (by decide) ?_
    have hp5 : docxExt.length = 5 := rfl
    omega
  · refine main xlsxExt ("xlsx".data) rfl (by decide) (by decide) ?_
    have hp5 : xlsxExt.length = 5 := rfl
    omega
  · refine main txtExt ("txt".data) rfl (by decide) (by decide) ?_
    have hp4 : txtExt.length = 4 := rfl
    omega

theorem load_documents_from_dir_append (directory : PyStr) (l₁ l₂ : List FileEntry) :
    load_documents_from_dir directory (l₁ ++ l₂) =
      ((load_documents_from_dir directory l₁).1 ++ (load_documents_from_dir directory l₂).1,
       (load_documents_from_dir directory l₁).2 ++ (load_documents_from_dir directory l₂).2) := by
  induction l₁ with
  | nil => simp [load_documents_from_dir]
  | cons f rest ih =>
    by_cases hp : passesFilter f
    · cases hl : load_document (pathJoin directory f.name) f with
      | ok ds => simp [load_documents_from_dir, hp, hl, ih]
      | error e => simp [load_documents_from_dir, hp, hl, ih]
    · simp [load_documents_from_dir, hp, ih]

/-- C9: a file whose extension is a supported one written in upper case passes the
case-insensitive directory filter, but `load_document`'s case-sensitive suffix
dispatch rejects it, so wherever the file occurs in the directory the scan logs
exactly one skip diagnostic for it and contributes zero documents from it. -/
theorem C9_uppercase_supported_extension_logged_and_skipped (directory : PyStr)
    (pre post : List FileEntry) (f : FileEntry)
    (hl : ((extOf f.name).map Char.toLower) ∈ supported_extensions)
    (hup : extOf f.name ≠ (extOf f.name).map Char.toLower)
    (hpresent : f.present = true) :
    load_document (pathJoin directory f.name) f =
      .error (.valueError (msgUnsupportedFormat ++ pathJoin directory f.name)) ∧
    load_documents_from_dir directory (pre ++ f :: post) =
      ((load_documents_from_dir directory pre).1 ++ (load_documents_from_dir directory post).1,
       (load_documents_from_dir directory pre).2 ++
         msgErrorLoading (pathJoin directory f.name)
           (.valueError (msgUnsupportedFormat ++ pathJoin directory f.name)) ::
         (load_documents_from_dir directory post).2) := by
  obtain ⟨h1, h2, h3, h4⟩ := dispatch_rejects_of_uppercase_ext (pathJoin directory f.name)
    f.name (pathJoin_eq_append directory f.name) hl hup
  have hld : load_document (pathJoin directory f.name) f =
      .error (.valueError (msgUnsupportedFormat ++ pathJoin directory f.name)) := by
    unfold load_document
    rw [hpresent]
    simp [h1, h2, h3, h4]
  refine ⟨hld, ?_⟩
  rw [load_documents_from_dir_append]
  have hpf : passesFilter f = true := by
    unfold passesFilter
    exact decide_eq_true hl
  have hsingle : load_documents_from_dir directory (f :: post) =
      ((load_documents_from_dir directory post).1,
       msgErrorLoading (pathJoin directory f.name)
         (.valueError (msgUnsupportedFormat ++ pathJoin directory f.name)) ::
       (load_documents_from_dir directory post).2) := by
    simp [load_documents_from_dir, hpf, hld]
  rw [hsingle]

def fileUpper : FileEntry :=
  { name := "informe.PDF".data, present := true,
    load_result := .ok [{ page_content := "ppp".data, metadata := [] }] }

theorem C9_uppercase_supported_extension_logged_and_skipped_witness :
    ((extOf fileUpper.name).map Char.toLower) ∈ supported_extensions ∧
    extOf fileUpper.name ≠ (extOf fileUpper.name).map Char.toLower ∧
    fileUpper.present = true ∧
    (load_document (pathJoin docsDir fileUpper.name) fileUpper =
      .error (.valueError (msgUnsupportedFormat ++ pathJoin docsDir fileUpper.name)) ∧
    load_documents_from_dir docsDir ([] ++ fileUpper :: []) =
      ((load_documents_from_dir docsDir []).1 ++ (load_documents_from_dir docsDir []).1,
       (load_documents_from_dir docsDir []).2 ++
         msgErrorLoading (pathJoin docsDir fileUpper.name)
           (.valueError (msgUnsupportedFormat ++ pathJoin docsDir fileUpper.name)) ::
         (load_documents_from_dir docsDir []).2)) :=
  ⟨by decide, by decide, rfl,
    C9_uppercase_supported_extension_logged_and_skipped docsDir [] [] fileUpper
      (by decide) (by decide) rfl⟩

/- ### Embeddings (src/embedings.py)

The Google embedding client is external; its single and batch calls are fields of the
generator, so the embedded functions contain exactly the repository's own validation
and exception wrapping. -/

/-- A Python value passed where a string is expected: an actual string, or any
non-string value (the `isinstance(text, str)` check distinguishes them). -/
inductive PyObj where
  | str (s : PyStr)
  | nonStr
deriving DecidableEq

/-- Python's whitespace characters for `str.strip` (the ASCII range). -/
def pyIsSpace (c : Char) : Bool :=
  decide (c = ' ' ∨ c = '\t' ∨ c = '\n' ∨ c = '\r' ∨ c = Char.ofNat 11 ∨ c = Char.ofNat 12)

/-- Python `str.strip()`: remove leading and trailing whitespace. -/
def pyStrip (s : PyStr) : PyStr :=
  ((s.dropWhile pyIsSpace).reverse.dropWhile pyIsSpace).reverse

/-- src/embedings.py:7-36 `EmbeddingsGenerator`: the model name and the external
Google client constructed in `__init__`, whose single and batch embedding calls are
the fields `embed_query` and `embed_documents`. -/
structure EmbeddingsGenerator where
  model_name : PyStr
  embed_query : PyStr → Except PyException Zvec
  embed_documents : List PyStr → Except PyException (List Zvec)

def msgTextNotEmpty : PyStr := "El texto debe ser una cadena no vacía".data

def msgEmbedError : PyStr := "Error al generar embedding: ".data

def msgBatchNotEmpty : PyStr := "La lista de textos debe contener cadenas no vacías".data

def msgBatchError : PyStr := "Error al generar embeddings en lote: ".data

/-- src/embedings.py:38-57 `generate_embedding(text)`: ValueError unless `text` is a
string whose strip is non-empty; otherwise delegate to the client's `embed_query`,
wrapping any failure in a bare Exception. -/
def EmbeddingsGenerator.generate_embedding (g : EmbeddingsGenerator) (text : PyObj) :
    Except PyException Zvec :=
  match text with
  | .nonStr => .error (.valueError msgTextNotEmpty)
  | .str s =>
    if pyStrip s = [] then .error (.valueError msgTextNotEmpty)
    else
      match g.embed_query s with
      | .ok v => .ok v
      | .error e => .error (.exceptionError (msgEmbedError ++ e.msg))

/-- The per-element truthiness test `isinstance(text, str) and text.strip()` of
src/embedings.py:72. -/
def validText : PyObj → Bool
  | .str s => decide (pyStrip s ≠ [])
  | .nonStr => false

/-- src/embedings.py:59-78 `generate_embeddings_batch(texts)`: ValueError unless the
list is non-empty and every element is a string with non-empty strip; otherwise
delegate to the client's `embed_documents`, wrapping any failure in a bare
Exception. -/
def EmbeddingsGenerator.generate_embeddings_batch (g : EmbeddingsGenerator)
    (texts : List PyObj) : Except PyException (List Zvec) :=
  if texts.isEmpty || !(texts.all validText) then .error (.valueError msgBatchNotEmpty)
  else
    match g.embed_documents (texts.map (fun t =>
        match t with | .str s => s | .nonStr => [])) with
    | .ok vs => .ok vs
    | .error e => .error (.exceptionError (msgBatchError ++ e.msg))

/-- Whether a result is the validation ValueError (the spec's `InvalidInputError`). -/
def raisesInvalidInput {α : Type} : Except PyException α → Bool
  | .error (.valueError _) => true
  | _ => false

/- ### Lemmas for claim C10 -/

theorem all_takeWhile (p : Char → Bool) : ∀ l : PyStr, (l.takeWhile p).all p = true := by
  intro l
  induction l with
  | nil => rfl
  | cons a l ih =>
    rw [List.takeWhile_cons]
    by_cases hp : p a
    · simp [hp, ih]
    · simp [hp]

theorem all_of_dropWhile_nil (p : Char → Bool) :
    ∀ l : PyStr, l.dropWhile p = [] → l.all p = true := by
  intro l
  induction l with
  | nil => intro _; rfl
  | cons a l ih =>
    intro h
    rw [List.dropWhile_cons] at h
    by_cases hp : p a
    · simp only [hp, if_true] at h
      simp [hp, ih h]
    · simp [hp] at h

theorem dropWhile_nil_of_all (p : Char → Bool) :
    ∀ l : PyStr, l.all p = true → l.dropWhile p = [] := by
  intro l
  induction l with
  | nil => intro _; rfl
  | cons a l ih =>
    intro h
    rw [List.all_cons, Bool.and_eq_true] at h
    rw [List.dropWhile_cons]
    simp only [h.1, if_true]
    exact ih h.2

theorem pyStrip_eq_nil_iff (s : PyStr) : pyStrip s = [] ↔ s.all pyIsSpace = true := by
  unfold pyStrip
  constructor
  · intro h
    have h1 : (s.dropWhile pyIsSpace).reverse.dropWhile pyIsSpace = [] := by
      rwa [List.reverse_eq_nil_iff] at h
    have h2 : (s.dropWhile pyIsSpace).reverse.all pyIsSpace = true :=
      all_of_dropWhile_nil pyIsSpace _ h1
    have h3 : (s.dropWhile pyIsSpace).all pyIsSpace = true := by
      rw [List.all_eq_true] at h2 ⊢
      intro x hx
      exact h2 x (List.mem_reverse.mpr hx)
    have h4 : s.all pyIsSpace = true := by
      conv_lhs => rw [← List.takeWhile_append_dropWhile (p := pyIsSpace) (l := s)]
      rw [List.all_append, Bool.and_eq_true]
      exact ⟨all_takeWhile pyIsSpace s, h3⟩
    exact h4
  · intro h
    rw [dropWhile_nil_of_all pyIsSpace s h]
    rfl

/-- C10: the embedding boundary rejects whitespace-only input, not only empty input,
for every client backend: `generate_embedding` fails with the invalid-input
ValueError iff its argument is not a string or consists only of whitespace, and
`generate_embeddings_batch` fails with it iff the list is empty or some element is
not a string or consists only of whitespace. -/
theorem C10_invalid_input_iff_nonstring_or_whitespace :
    (∀ (g : EmbeddingsGenerator) (t : PyObj),
      raisesInvalidInput (g.generate_embedding t) = true ↔
        (t = .nonStr ∨ ∃ s, t = .str s ∧ s.all pyIsSpace = true)) ∧
    (∀ (g : EmbeddingsGenerator) (ts : List PyObj),
      raisesInvalidInput (g.generate_embeddings_batch ts) = true ↔
        (ts = [] ∨ ∃ t ∈ ts, t = .nonStr ∨ ∃ s, t = .str s ∧ s.all pyIsSpace = true)) := by
  have hvalid : ∀ t : PyObj, validText t = false ↔
      (t = .nonStr ∨ ∃ s, t = .str s ∧ s.all pyIsSpace = true) := by
    intro t
    cases t with
    | nonStr => simp [validText]
    | str s =>
      simp only [validText, decide_eq_false_iff_not, not_not]
      constructor
      · intro h
        exact Or.inr ⟨s, rfl, (pyStrip_eq_nil_iff s).mp h⟩
      · rintro (h | ⟨s', hs', hall⟩)
        · exact absurd h (by simp)
        · cases hs'
          exact (pyStrip_eq_nil_iff s).mpr hall
  constructor
  · intro g t
    cases t with
    | nonStr =>
      simp [EmbeddingsGenerator.generate_embedding, raisesInvalidInput]
    | str s =>
      by_cases hs : pyStrip s = []
      · have hall := (pyStrip_eq_nil_iff s).mp hs
        simp [EmbeddingsGenerator.generate_embedding, hs, raisesInvalidInput]
        exact List.all_eq_true.mp hall
      · have hnall : ¬ s.all pyIsSpace = true := fun h => hs ((pyStrip_eq_nil_iff s).mpr h)
        have hex : ∃ x ∈ s, pyIsSpace x = false := by
          by_contra hno
          push_neg at hno
          apply hnall
          rw [List.all_eq_true]
          intro x hx
          rcases Bool.eq_false_or_eq_true (pyIsSpace x) with ht2 | hf
          · exact ht2
          · exact absurd hf (hno x hx)
        cases hb : g.embed_query s with
        | ok v =>
          simp [EmbeddingsGenerator.generate_embedding, hs, hb, raisesInvalidInput]
          exact hex
        | error e =>
          simp [EmbeddingsGenerator.generate_embedding, hs, hb, raisesInvalidInput]
          exact hex
  · intro g ts
    by_cases hcond : (ts.isEmpty || !(ts.all validText)) = true
    · have hlhs : raisesInvalidInput (g.generate_embeddings_batch ts) = true := by
        simp [EmbeddingsGenerator.generate_embeddings_batch, hcond, raisesInvalidInput]
      rw [hlhs]
      simp only [true_iff]
      rcases Bool.or_eq_true_iff.mp hcond with h | h
      · exact Or.inl (List.isEmpty_iff.mp h)
      · right
        have h' : ¬ ts.all validText = true := by
          simpa using h
        rw [List.all_eq_true] at h'
        push_neg at h'
        rcases h' with ⟨t, ht, hvf⟩
        exact ⟨t, ht, (hvalid t).mp (by simpa using hvf)⟩
    · have hlhs : raisesInvalidInput (g.generate_embeddings_batch ts) = false := by
        cases hb : g.embed_documents (ts.map (fun t =>
            match t with | .str s => s | .nonStr => [])) with
        | ok vs =>
          simp [EmbeddingsGenerator.generate_embeddings_batch, hcond, hb, raisesInvalidInput]
        | error e =>
          simp [EmbeddingsGenerator.generate_embeddings_batch, hcond, hb, raisesInvalidInput]
      rw [hlhs]
      simp only [Bool.false_eq_true, false_iff]
      rw [Bool.or_eq_true_iff] at hcond
      push_neg at hcond
      rintro (h | ⟨t, ht, hdis⟩)
      · exact hcond.1 (by simp [h])
      · have hall : ts.all validText = true := by
          have := hcond.2
          simpa using this
        rw [List.all_eq_true] at hall
        have hvt := hall t ht
        have hvf := (hvalid t).mpr hdis
        rw [hvt] at hvf
        simp at hvf
